import Mathlib

/-!
Verification development for the on-call scheduler (`oncall_scheduler.py`).

The scheduling engine is embedded shallowly:

* Calendar dates handled by the date-expression resolver
  (`parse_date_argument`) and the range calculator (`calculate_date_range`)
  are modelled by the `PyDate` structure (proleptic Gregorian year, month,
  day), mirroring Python `datetime` values at midnight.  `timedelta(days=n)`
  is `n` applications of `nextDay`; `relativedelta(months=n)` /
  `relativedelta(years=n)` are `addMonths` / `addYears`, which clamp the
  day-of-month exactly as `dateutil.relativedelta` does.
* Dates flowing through the per-layer enumeration and rotation loops are
  modelled by their Python `date.toordinal()` value (a `Nat`); ordinal 1 is
  0001-01-01, a Monday, so `weekday o = (o + 6) % 7` agrees with Python's
  `date.weekday()`.  The only date operations those loops perform are
  `+ one day`, `<` and `weekday()`, all captured exactly on ordinals.
* Python dicts are modelled as association lists holding the dict's final
  (insertion-ordered, key-distinct) entries; absent keys are `Option.none`.
* `list.sort(key=...)` (a stable sort, ascending by key) is modelled by a
  stable insertion sort with the same key.
-/

/-- A Python `datetime` at midnight: proleptic Gregorian year/month/day. -/
structure PyDate where
  year : Nat
  month : Nat
  day : Nat
deriving DecidableEq

/-- Gregorian leap-year test, as used by Python's `calendar`/`datetime`. -/
def isLeap (y : Nat) : Bool :=
  y % 4 == 0 && (!(y % 100 == 0) || y % 400 == 0)

/-- Number of days in month `m` of year `y` (months 1..12). -/
def daysInMonth (y m : Nat) : Nat :=
  if m = 2 then (if isLeap y then 29 else 28)
  else if m = 4 ∨ m = 6 ∨ m = 9 ∨ m = 11 then 30
  else 31

/-- The calendar successor of a date (Python `d + timedelta(days=1)`). -/
def nextDay (d : PyDate) : PyDate :=
  if d.day < daysInMonth d.year d.month then ⟨d.year, d.month, d.day + 1⟩
  else if d.month < 12 then ⟨d.year, d.month + 1, 1⟩
  else ⟨d.year + 1, 1, 1⟩

/-- Python `d + timedelta(days=n)`. -/
def addDays (d : PyDate) (n : Nat) : PyDate :=
  nextDay^[n] d

/-- Python `d + relativedelta(months=n)`: calendar-aware month addition,
clamping the day to the length of the target month. -/
def addMonths (d : PyDate) (n : Nat) : PyDate :=
  let t := d.month - 1 + n
  let y := d.year + t / 12
  let m := t % 12 + 1
  ⟨y, m, min d.day (daysInMonth y m)⟩

/-- Python `d + relativedelta(years=n)`: calendar-aware year addition,
clamping the day (Feb 29 maps to Feb 28 in a non-leap target year). -/
def addYears (d : PyDate) (n : Nat) : PyDate :=
  ⟨d.year + n, d.month, min d.day (daysInMonth (d.year + n) d.month)⟩

/-- ASCII digit test: the digits `'0'`–`'9'`.  Python's regex class `\d`
in a `str` pattern also matches every non-ASCII Unicode decimal digit, so
resolver theorems quantifying over arbitrary input restrict to ASCII
strings, on which the two classes coincide. -/
def isDigitC (c : Char) : Bool :=
  48 ≤ c.toNat && c.toNat ≤ 57

/-- The characters stripped by Python `str.strip()`: exactly those with
`str.isspace()` true — ASCII whitespace `\t\n\v\f\r`, the separators
`\x1c`–`\x1f`, space, NEL `\x85`, NBSP `\xa0`, and the Unicode space
separators (Ogham space 5760, the en/em spaces 8192-8202, line and
paragraph separators 8232/8233, narrow NBSP 8239, medium mathematical
space 8287, ideographic space 12288). -/
def pyIsSpace (c : Char) : Bool :=
  (9 ≤ c.toNat && c.toNat ≤ 13) || (28 ≤ c.toNat && c.toNat ≤ 32) ||
    c.toNat == 133 || c.toNat == 160 || c.toNat == 5760 ||
    (8192 ≤ c.toNat && c.toNat ≤ 8202) || c.toNat == 8232 || c.toNat == 8233 ||
    c.toNat == 8239 || c.toNat == 8287 || c.toNat == 12288

/-- Python `str.lower()` on one ASCII character.  Non-ASCII case mapping
is not modelled, so resolver theorems quantifying over arbitrary input
restrict to ASCII strings, where this is `str.lower()` exactly. -/
def lowerChar (c : Char) : Char :=
  if 65 ≤ c.toNat ∧ c.toNat ≤ 90 then Char.ofNat (c.toNat + 32) else c

/-- Python `str.strip()`: drop leading and trailing whitespace. -/
def trimChars (cs : List Char) : List Char :=
  ((cs.dropWhile pyIsSpace).reverse.dropWhile pyIsSpace).reverse

/-- `date_str.strip().lower()`, the normalisation performed by
`parse_date_argument` before any matching. -/
def normalizeArg (cs : List Char) : List Char :=
  (trimChars cs).map lowerChar

/-- Numeric value of a digit string (what Python `int()` returns on it). -/
def valDigits (ds : List Char) : Nat :=
  ds.foldl (fun a c => a * 10 + (c.toNat - 48)) 0

/-- The relative-date regex `^\+(\d+)([dwmy])?$` of `parse_date_argument`:
returns the amount and the unit letter (`'d'` when the unit is omitted). -/
def parseRelative (cs : List Char) : Option (Nat × Char) :=
  match cs with
  | '+' :: rest =>
    let ds := rest.takeWhile isDigitC
    let tail := rest.dropWhile isDigitC
    if ds.isEmpty then none
    else
      match tail with
      | [] => some (valDigits ds, 'd')
      | [c] => if c = 'd' ∨ c = 'w' ∨ c = 'm' ∨ c = 'y' then some (valDigits ds, c) else none
      | _ => none
  | _ => none

/-- Python `datetime.strptime(s, "%Y-%m-%d")`: `%Y` is exactly four digits,
`%m` and `%d` are one or two digits in range (1..12 and 1..31), nothing may
remain after the day, and the `datetime` constructor then checks `year ≥ 1`
and the day against the month length. -/
def parseAbsolute (cs : List Char) : Option PyDate :=
  let yd := cs.takeWhile isDigitC
  let r1 := cs.dropWhile isDigitC
  if yd.length = 4 then
    match r1 with
    | '-' :: r2 =>
      let md := r2.takeWhile isDigitC
      let r3 := r2.dropWhile isDigitC
      if (md.length = 1 ∨ md.length = 2) ∧ 1 ≤ valDigits md ∧ valDigits md ≤ 12 then
        match r3 with
        | '-' :: r4 =>
          let dd := r4.takeWhile isDigitC
          let r5 := r4.dropWhile isDigitC
          if (dd.length = 1 ∨ dd.length = 2) ∧ 1 ≤ valDigits dd ∧ valDigits dd ≤ 31 ∧ r5 = [] then
            if 1 ≤ valDigits yd ∧ valDigits dd ≤ daysInMonth (valDigits yd) (valDigits md) then
              some ⟨valDigits yd, valDigits md, valDigits dd⟩
            else none
          else none
        | _ => none
      else none
    | _ => none
  else none

/-- The absolute-date fallback of `parse_date_argument` (lines 76-84):
try `YYYY-MM-DD`, otherwise raise `ValueError` with the offending
(normalised) string and the accepted-format list. -/
def absFallback (t : List Char) : Except String PyDate :=
  match parseAbsolute t with
  | some d => .ok d
  | none =>
    .error ("Invalid date format '" ++ String.mk t ++
      "'. Use YYYY-MM-DD (e.g., 2026-01-20) or relative format (e.g., +2d, +3w, +2m, +1y, or today)")

/-- `parse_date_argument(date_str, reference_date)`: strip and lowercase,
accept `today`, then the relative grammar, then `YYYY-MM-DD`, else fail. -/
def parse_date_argument (s : String) (ref : PyDate) : Except String PyDate :=
  if normalizeArg s.data = "today".data then .ok ref
  else
    match parseRelative (normalizeArg s.data) with
    | some (n, u) =>
      if u = 'd' then .ok (addDays ref n)
      else if u = 'w' then .ok (addDays ref (7 * n))
      else if u = 'm' then .ok (addMonths ref n)
      else if u = 'y' then .ok (addYears ref n)
      else absFallback (normalizeArg s.data)
    | none => absFallback (normalizeArg s.data)

/-- Days strictly before year `y` in the proleptic Gregorian calendar
(`y ≥ 1`); `daysBeforeYear 1 = 0`. -/
def daysBeforeYear (y : Nat) : Nat :=
  (y - 1) * 365 + (y - 1) / 4 - (y - 1) / 100 + (y - 1) / 400

/-- Days of year `y` strictly before month `m`. -/
def daysBeforeMonth (y m : Nat) : Nat :=
  (List.range (m - 1)).foldl (fun a i => a + daysInMonth y (i + 1)) 0

/-- Python `date.toordinal()`: 0001-01-01 is ordinal 1. -/
def toOrdinal (d : PyDate) : Nat :=
  daysBeforeYear d.year + daysBeforeMonth d.year d.month + d.day

/-- Python `datetime` comparison `a <= b` on midnight values. -/
def pyLeB (a b : PyDate) : Bool :=
  if a.year < b.year then true
  else if a.year = b.year then
    (if a.month < b.month then true
     else if a.month = b.month then a.day ≤ b.day
     else false)
  else false

/-- One entry of a layer's `time_windows` dict: optional `start`/`end`
clock-time strings and the per-day `dummy` flag. -/
structure DayWindow where
  wstart : Option String
  wend : Option String
  dummy : Bool
deriving DecidableEq

/-- The legacy single `time_window` dict of a layer (only `start`/`end`
are ever read from it; it carries no dummy flag in the loop). -/
structure OldWindow where
  wstart : Option String
  wend : Option String
deriving DecidableEq

/-- One layer of the YAML configuration, with Python `.get` defaults made
explicit: absent keys are `none` / `[]` / `false`. -/
structure LayerConfig where
  name : Option String
  rotation_team : List String
  dummy : Bool
  time_windows : Option (List (String × DayWindow))
  time_window : OldWindow
  days : List String
deriving DecidableEq

/-- One materialized shift: the tuple
`(date, layer_name, time_window, person, layer_idx)` appended to
`layer_shifts`.  `date` is the Python ordinal of the shift date. -/
structure Shift where
  date : Nat
  layer_name : String
  time_window : String
  person : String
  layer_idx : Nat
deriving DecidableEq

/-- The `day_map` dict of `generate_dates_for_layer`. -/
def dayMap (s : String) : Option Nat :=
  match s with
  | "monday" => some 0
  | "tuesday" => some 1
  | "wednesday" => some 2
  | "thursday" => some 3
  | "friday" => some 4
  | "saturday" => some 5
  | "sunday" => some 6
  | _ => none

/-- Python `str.lower()` on a whole (ASCII) string. -/
def lowerS (s : String) : String :=
  String.mk (s.data.map lowerChar)

/-- The dict comprehension over `time_windows.keys()`:
`{day_map[day.lower()]: day.lower() for day in time_windows if day.lower() in day_map}`.
Looking up weekday `w` returns the value of the last comprehension entry
mapping to `w` (later duplicates overwrite earlier ones, as in a dict). -/
def activeFromWindows (tws : List (String × DayWindow)) (w : Nat) : Option String :=
  (tws.filterMap (fun kv =>
    (dayMap (lowerS kv.1)).bind
      (fun n => if n = w then some (lowerS kv.1) else none))).getLast?

/-- The same comprehension over the legacy `days` list. -/
def activeFromDays (days : List String) (w : Nat) : Option String :=
  (days.filterMap (fun d =>
    (dayMap (lowerS d)).bind
      (fun n => if n = w then some (lowerS d) else none))).getLast?

/-- `active_weekdays` lookup for a layer: the `time_windows` branch when the
key is present, otherwise the legacy `days` branch. -/
def activeWeekday (L : LayerConfig) (w : Nat) : Option String :=
  match L.time_windows with
  | some tws => activeFromWindows tws w
  | none => activeFromDays L.days w

/-- The date loop of `generate_dates_for_layer`, recursing on the number of
remaining days (`e - s` iterations starting at ordinal `s`); emits
`(date, day_name)` whenever the date's weekday is an active weekday. -/
def genDatesLoop (act : Nat → Option String) : Nat → Nat → List (Nat × String)
  | _, 0 => []
  | s, n + 1 =>
    match act ((s + 6) % 7) with
    | some dn => (s, dn) :: genDatesLoop act (s + 1) n
    | none => genDatesLoop act (s + 1) n

/-- `generate_dates_for_layer(layer_config, start_date, end_date)` on
ordinals: all `(date, day_name)` pairs with `start ≤ date < end` whose
weekday is configured for the layer, in chronological order. -/
def generate_dates_for_layer (L : LayerConfig) (s e : Nat) : List (Nat × String) :=
  genDatesLoop (activeWeekday L) s (e - s)

/-- The per-date window resolution inside the rotation loop (lines 286-296):
`(start_time, end_time, is_dummy_day)`, falling back to the legacy
`time_window` when `time_windows` is empty or lacks `day_name`. -/
def dayInfo (tws : List (String × DayWindow)) (old : OldWindow) (dn : String) :
    String × String × Bool :=
  if tws.isEmpty then (old.wstart.getD "N/A", old.wend.getD "N/A", false)
  else
    match tws.lookup dn with
    | some dw => (dw.wstart.getD "N/A", dw.wend.getD "N/A", dw.dummy)
    | none => (old.wstart.getD "N/A", old.wend.getD "N/A", false)

/-- The body of the rotation loop (lines 283-306) for the entry at position
`i`: assign `rotation_team[i % len(rotation_team)]`, resolve the window,
and materialize the shift unless the layer or the day is dummy. -/
def rowShift (idx : Nat) (lname : String) (team : List String)
    (tws : List (String × DayWindow)) (old : OldWindow) (isDummyLayer : Bool)
    (i d : Nat) (dn : String) : Option Shift :=
  let person := team.getD (i % team.length) ""
  let info := dayInfo tws old dn
  if !isDummyLayer && !info.2.2 then
    some ⟨d, lname, info.1 ++ " - " ++ info.2.1, person, idx⟩
  else none

/-- The rotation loop itself: `enumerate(dates)` threaded as an explicit
position counter `i` that advances on every enumerated date. -/
def assignShifts (idx : Nat) (lname : String) (team : List String)
    (tws : List (String × DayWindow)) (old : OldWindow) (isDummyLayer : Bool) :
    List (Nat × String) → Nat → List Shift
  | [], _ => []
  | (d, dn) :: rest, i =>
    match rowShift idx lname team tws old isDummyLayer i d dn with
    | some sh => sh :: assignShifts idx lname team tws old isDummyLayer rest (i + 1)
    | none => assignShifts idx lname team tws old isDummyLayer rest (i + 1)

/-- One iteration of the layer loop of `generate_oncall_calendar`
(lines 267-306): an empty rotation team short-circuits (`continue`),
otherwise the layer's dates are enumerated and assigned. -/
def shiftsForLayer (idx : Nat) (layer_id : String) (L : LayerConfig) (s e : Nat) :
    List Shift :=
  if L.rotation_team.isEmpty then []
  else
    assignShifts idx (L.name.getD layer_id) L.rotation_team (L.time_windows.getD [])
      L.time_window L.dummy (generate_dates_for_layer L s e) 0

/-- The concatenation of every layer's materialized shifts, with
`layer_idx` taken from `enumerate(layers_config.items())` (skipped layers
still advance the index). -/
def allLayerShifts (layers : List (String × LayerConfig)) (s e : Nat) : List Shift :=
  (layers.enum.map (fun ip => shiftsForLayer ip.1 ip.2.1 ip.2.2 s e)).flatten

/-- Lexicographic `≤` on code-point lists: Python string comparison. -/
def lexLeCh : List Char → List Char → Bool
  | [], _ => true
  | _ :: _, [] => false
  | a :: as, b :: bs =>
    if a.toNat < b.toNat then true
    else if b.toNat < a.toNat then false
    else lexLeCh as bs

/-- The sort key comparison of `layer_shifts.sort(key=lambda x: (x[0], x[2]))`:
ascending date, then ascending full time-window string. -/
def sortKeyLe (a b : Shift) : Bool :=
  if a.date < b.date then true
  else if a.date = b.date then lexLeCh a.time_window.data b.time_window.data
  else false

/-- Stable insertion of a shift in front of the first element it is `≤` to. -/
def insertShift (x : Shift) : List Shift → List Shift
  | [] => [x]
  | y :: ys => if sortKeyLe x y then x :: y :: ys else y :: insertShift x ys

/-- `layer_shifts.sort(key=lambda x: (x[0], x[2]))`: a stable ascending sort
by `(date, time_window)` (Python's sort is stable; any stable sort by the
same key yields the same list). -/
def sortShifts : List Shift → List Shift
  | [] => []
  | x :: xs => insertShift x (sortShifts xs)

/-- The Aggregated Schedule: all layers' shifts, sorted canonically. -/
def canonicalShifts (layers : List (String × LayerConfig)) (s e : Nat) : List Shift :=
  sortShifts (allLayerShifts layers s e)

/-- The scheduling core of `generate_oncall_calendar`: fail when no layers
are configured (line 205), otherwise produce the sorted shift list. -/
def generate_oncall_calendar_core (layers : List (String × LayerConfig)) (s e : Nat) :
    Except String (List Shift) :=
  if layers.isEmpty then .error "No layers defined in configuration file"
  else .ok (canonicalShifts layers s e)

/-- The top-level schedule configuration keys used by the range calculator
and the layer loop. -/
structure ScheduleConfig where
  start_date : Option String
  duration_months : Option Nat
  layers : List (String × LayerConfig)

/-- `calculate_date_range(schedule_config, start_override, end_override)`:
override wins, else the config `start_date` (parsed with strptime), else
`today`; the end falls back to `start + relativedelta(months=duration)`
with `duration_months` defaulting to 3. -/
def calculate_date_range (cfg : ScheduleConfig) (s_ov e_ov : Option PyDate)
    (today : PyDate) : Except String (PyDate × PyDate) :=
  match (match s_ov with
         | some s => Except.ok s
         | none =>
           match cfg.start_date with
           | some cs =>
             (match parseAbsolute cs.data with
              | some d => Except.ok d
              | none => Except.error ("time data '" ++ cs ++ "' does not match format '%Y-%m-%d'"))
           | none => Except.ok today : Except String PyDate) with
  | .error msg => .error msg
  | .ok s =>
    match e_ov with
    | some e => .ok (s, e)
    | none => .ok (s, addMonths s (cfg.duration_months.getD 3))

/-- The color palette of `generate_oncall_calendar` (15 entries, cyclically
reused). -/
def colors : List String :=
  ["E8F5E9", "E3F2FD", "FFF3E0", "FCE4EC", "F3E5F5",
   "E0F2F1", "FFF9C4", "FFE0B2", "F8BBD0", "D1C4E9",
   "C8E6C9", "BBDEFB", "FFE0B2", "F8BBD0", "E1BEE7"]

/-- `person in person_colors`: key membership in the color dict. -/
def seenB (acc : List (String × String)) (p : String) : Bool :=
  acc.any (fun q => q.1 == p)

/-- The color-assignment walk of the data-row loop (lines 324-342): on the
first encounter of a person, assign `colors[color_idx % len(colors)]` and
advance `color_idx`. -/
def assignColors : List Shift → List (String × String) → Nat → List (String × String)
  | [], acc, _ => acc
  | sh :: rest, acc, i =>
    if seenB acc sh.person then assignColors rest acc i
    else assignColors rest (acc ++ [(sh.person, colors.getD (i % colors.length) "")]) (i + 1)

/-- The `person_colors` dict produced by walking a shift list in order. -/
def person_colors (shifts : List Shift) : List (String × String) :=
  assignColors shifts [] 0

/-- First-appearance order of a list of names (insertion-ordered dedup). -/
def firstAppearAux : List String → List String → List String
  | [], _ => []
  | p :: ps, seen =>
    if seen.contains p then firstAppearAux ps seen
    else p :: firstAppearAux ps (p :: seen)

/-- The distinct persons of a list, in order of first appearance. -/
def firstAppear (l : List String) : List String :=
  firstAppearAux l []

/-- Helper for Python `str.split`: prepend a character to the first segment. -/
def consHead (c : Char) : List (List Char) → List (List Char)
  | [] => [[c]]
  | h :: t => (c :: h) :: t

/-- Python `time_window.split(' - ')`: split on every occurrence of the
three-character separator, scanning left to right. -/
def splitDash : List Char → List (List Char)
  | ' ' :: '-' :: ' ' :: rest => [] :: splitDash rest
  | c :: rest => consHead c (splitDash rest)
  | [] => [[]]

/-- Python `time_str.split(':')`. -/
def splitColon : List Char → List (List Char)
  | ':' :: rest => [] :: splitColon rest
  | c :: rest => consHead c (splitColon rest)
  | [] => [[]]

/-- `time_to_y` of `generate_visual_schedule`, scaled to whole minutes:
`hours, minutes = map(int, time_str.split(':'))` then `hours*60 + minutes`
(the Python value is this divided by 60).  `none` models the `ValueError`
raised when the string is not two integer fields. -/
def timeToMin (cs : List Char) : Option Nat :=
  match splitColon cs with
  | [h, m] =>
    if h.all isDigitC && m.all isDigitC && !h.isEmpty && !m.isEmpty then
      some (60 * valDigits h + valDigits m)
    else none
  | _ => none

/-- `start_time, end_time = time_window.split(' - ')` followed by parsing
both clock times; `none` models the unpacking/`int` errors. -/
def shiftTimesOf (sh : Shift) : Option (Nat × Nat) :=
  match splitDash sh.time_window.data with
  | [a, b] =>
    match timeToMin a, timeToMin b with
    | some x, some y => some (x, y)
    | _, _ => none
  | _ => none

/-- The `all_times` collection loop: every shift contributes its start and
its end value. -/
def collectTimes : List Shift → Option (List Nat)
  | [] => some []
  | sh :: rest =>
    match shiftTimesOf sh, collectTimes rest with
    | some (x, y), some ts => some (x :: y :: ts)
    | _, _ => none

/-- The vertical-axis bounds of `generate_visual_schedule` (lines 466-478),
in whole hours: `min_time = int(min(all_times))` and
`max_time = int(max(all_times)) + 1`; `none` is the early return when
there are no shifts to visualize. -/
def visualBounds (shifts : List Shift) : Option (Nat × Nat) :=
  if shifts.isEmpty then none
  else
    match collectTimes shifts with
    | some (t :: ts) => some ((ts.foldl Nat.min t) / 60, (ts.foldl Nat.max t) / 60 + 1)
    | _ => none

/-- The ceiling-to-whole-hours operation the specification describes, on a
minutes-scaled hour value (`v` minutes = `v/60` hours). -/
def specCeilHour (v : Nat) : Nat :=
  v / 60 + (if v % 60 = 0 then 0 else 1)

/-- The start-time portion of a stored `"start - end"` window string: the
first segment of the `' - '` split (the claim's secondary sort key). -/
def startKeyOf (sh : Shift) : List Char :=
  (splitDash sh.time_window.data).headD []

/-- The sort-key comparison the claim describes: ascending date, then
ascending window start-time string only. -/
def sortKeySpecLe (a b : Shift) : Bool :=
  if a.date < b.date then true
  else if a.date = b.date then lexLeCh (startKeyOf a) (startKeyOf b)
  else false

/-- Stable insertion for the claim's sort key. -/
def insertSpec (x : Shift) : List Shift → List Shift
  | [] => [x]
  | y :: ys => if sortKeySpecLe x y then x :: y :: ys else y :: insertSpec x ys

/-- The stable sort by `(date, window start-time string)` that the claim
says the aggregator performs. -/
def sortShiftsSpec : List Shift → List Shift
  | [] => []
  | x :: xs => insertSpec x (sortShiftsSpec xs)

/-! ### Helper lemmas -/

theorem filterMap_congr_mem {α β : Type} (l : List α) (f g : α → Option β)
    (h : ∀ a ∈ l, f a = g a) : l.filterMap f = l.filterMap g := by
  induction l with
  | nil => rfl
  | cons x xs ih =>
    rw [List.filterMap_cons, List.filterMap_cons, h x (by simp),
      ih (fun a ha => h a (by simp [ha]))]

theorem mem_of_getLast? {α : Type} {l : List α} {a : α}
    (h : l.getLast? = some a) : a ∈ l := by
  induction l with
  | nil => simp [List.getLast?] at h
  | cons x xs ih =>
    cases xs with
    | nil => simp [List.getLast?] at h; simp [h]
    | cons y ys =>
      rw [List.getLast?_cons_cons] at h
      exact List.mem_cons_of_mem x (ih h)

theorem assignShifts_eq_enumFrom (idx : Nat) (lname : String) (team : List String)
    (tws : List (String × DayWindow)) (old : OldWindow) (dum : Bool) :
    ∀ (dates : List (Nat × String)) (i : Nat),
      assignShifts idx lname team tws old dum dates i =
        (dates.enumFrom i).filterMap
          (fun p => rowShift idx lname team tws old dum p.1 p.2.1 p.2.2) := by
  intro dates
  induction dates with
  | nil => intro i; rfl
  | cons hd rest ih =>
    intro i
    obtain ⟨d, dn⟩ := hd
    rw [List.enumFrom_cons, List.filterMap_cons]
    cases h : rowShift idx lname team tws old dum i d dn with
    | none => simp [assignShifts, h, ih]
    | some sh => simp [assignShifts, h, ih]

/-! ### C1 -/

/-- C1: for a layer with a non-empty rotation team, the materialized shifts
are exactly the non-dummy entries of the enumerated date sequence, where the
entry at 0-based chronological position `i` is assigned
`rotation_team[i % len(rotation_team)]`; the position is the index in the
full enumeration, so dummy-dropped dates (layer-wide or window-level dummy)
still advance it and never change later assignments. -/
theorem c1_rotation_position (idx : Nat) (layer_id : String) (L : LayerConfig)
    (s e : Nat) (h : L.rotation_team ≠ []) :
    shiftsForLayer idx layer_id L s e =
      (generate_dates_for_layer L s e).enum.filterMap (fun p =>
        if L.dummy || (dayInfo (L.time_windows.getD []) L.time_window p.2.2).2.2 then none
        else some ⟨p.2.1, L.name.getD layer_id,
          (dayInfo (L.time_windows.getD []) L.time_window p.2.2).1 ++ " - " ++
            (dayInfo (L.time_windows.getD []) L.time_window p.2.2).2.1,
          L.rotation_team.get ⟨p.1 % L.rotation_team.length,
            Nat.mod_lt _ (List.length_pos.mpr h)⟩,
          idx⟩) := by
  rw [shiftsForLayer, if_neg (by simp [List.isEmpty_iff, h]),
    assignShifts_eq_enumFrom]
  apply filterMap_congr_mem
  intro p _
  rw [rowShift]
  cases hd : L.dummy <;> cases hi : (dayInfo (L.time_windows.getD []) L.time_window p.2.2).2.2 <;>
    simp [hd, hi, List.getElem?_eq_getElem (Nat.mod_lt _ (List.length_pos.mpr h))]

/-- C1 witness: a two-person Monday layer over two weeks, evaluated. -/
theorem c1_rotation_position_witness :
    shiftsForLayer 0 "l1"
      ⟨some "Layer A", ["alice", "bob"], false,
        some [("monday", ⟨some "08:00", some "10:30", false⟩)], ⟨none, none⟩, []⟩
      739621 739635 =
      [⟨739621, "Layer A", "08:00 - 10:30", "alice", 0⟩,
       ⟨739628, "Layer A", "08:00 - 10:30", "bob", 0⟩] := by
  rw [c1_rotation_position 0 "l1" _ 739621 739635 (by decide)]
  decide

/-! ### C4 -/

/-- C4: a layer whose rotation team is empty contributes zero shifts for
every date range; the empty-team guard short-circuits before the
`i % len(rotation_team)` indexing, so no modulo-by-zero is evaluated (the
embedding is total and never reaches `rowShift`). -/
theorem c4_empty_team_zero_shifts (L : LayerConfig) (h : L.rotation_team = []) :
    ∀ (idx : Nat) (layer_id : String) (s e : Nat),
      shiftsForLayer idx layer_id L s e = [] := by
  intro idx layer_id s e
  rw [shiftsForLayer, if_pos (by simp [List.isEmpty_iff, h])]

/-- C4 witness: an otherwise valid layer with an empty team yields no
shifts on a concrete range. -/
theorem c4_empty_team_zero_shifts_witness :
    shiftsForLayer 0 "l1"
      ⟨some "Layer A", [], false,
        some [("monday", ⟨some "08:00", some "10:30", false⟩)], ⟨none, none⟩, []⟩
      739621 739635 = [] :=
  c4_empty_team_zero_shifts _ rfl 0 "l1" 739621 739635

/-! ### C9 -/

theorem genDatesLoop_congr (act1 act2 : Nat → Option String)
    (h : ∀ w, act1 w = act2 w) :
    ∀ (n s : Nat), genDatesLoop act1 s n = genDatesLoop act2 s n := by
  intro n
  induction n with
  | zero => intro s; rfl
  | succ k ih =>
    intro s
    rw [genDatesLoop, genDatesLoop, h ((s + 6) % 7)]
    cases act2 ((s + 6) % 7) with
    | none => exact ih (s + 1)
    | some dn => rw [ih (s + 1)]

theorem genDatesLoop_recognized (act : Nat → Option String)
    (hact : ∀ w dn, act w = some dn → (dayMap dn).isSome = true) :
    ∀ (n s : Nat) (p : Nat × String), p ∈ genDatesLoop act s n →
      (dayMap p.2).isSome = true := by
  intro n
  induction n with
  | zero => intro s p hp; simp [genDatesLoop] at hp
  | succ k ih =>
    intro s p hp
    rw [genDatesLoop] at hp
    cases h : act ((s + 6) % 7) with
    | none => rw [h] at hp; exact ih (s + 1) p hp
    | some dn =>
      rw [h] at hp
      rcases List.mem_cons.mp hp with rfl | hmem
      · exact hact _ dn h
      · exact ih (s + 1) p hmem

theorem activeFromWindows_recognized (tws : List (String × DayWindow)) (w : Nat)
    (dn : String) (h : activeFromWindows tws w = some dn) :
    (dayMap dn).isSome = true := by
  have hm := mem_of_getLast? h
  rw [List.mem_filterMap] at hm
  obtain ⟨kv, _, hkv⟩ := hm
  cases hd : dayMap (lowerS kv.1) with
  | none => simp [hd] at hkv
  | some n =>
    simp only [hd, Option.some_bind] at hkv
    by_cases hnw : n = w
    · rw [if_pos hnw] at hkv
      injection hkv with h2
      subst h2
      simp [hd]
    · rw [if_neg hnw] at hkv
      exact absurd hkv (by simp)

theorem activeFromDays_recognized (days : List String) (w : Nat)
    (dn : String) (h : activeFromDays days w = some dn) :
    (dayMap dn).isSome = true := by
  have hm := mem_of_getLast? h
  rw [List.mem_filterMap] at hm
  obtain ⟨d, _, hkv⟩ := hm
  cases hd : dayMap (lowerS d) with
  | none => simp [hd] at hkv
  | some n =>
    simp only [hd, Option.some_bind] at hkv
    by_cases hnw : n = w
    · rw [if_pos hnw] at hkv
      injection hkv with h2
      subst h2
      simp [hd]
    · rw [if_neg hnw] at hkv
      exact absurd hkv (by simp)

/-- C9: a `time_windows` key that (after lowercasing) is not one of the
seven weekday names is silently ignored — removing it changes nothing and
no error is raised — and every enumerated `(date, weekday-key)` pair
carries a recognized weekday name. -/
theorem c9_unrecognized_weekday_ignored (nm : Option String) (team : List String)
    (dum : Bool) (old : OldWindow) (days : List String)
    (tws1 tws2 : List (String × DayWindow)) (k : String) (w : DayWindow)
    (s e : Nat) (hk : dayMap (lowerS k) = none) :
    generate_dates_for_layer ⟨nm, team, dum, some (tws1 ++ (k, w) :: tws2), old, days⟩ s e =
      generate_dates_for_layer ⟨nm, team, dum, some (tws1 ++ tws2), old, days⟩ s e ∧
    ∀ p ∈ generate_dates_for_layer ⟨nm, team, dum, some (tws1 ++ (k, w) :: tws2), old, days⟩ s e,
      (dayMap p.2).isSome = true := by
  constructor
  · apply genDatesLoop_congr
    intro w'
    show activeFromWindows (tws1 ++ (k, w) :: tws2) w' = activeFromWindows (tws1 ++ tws2) w'
    rw [activeFromWindows, activeFromWindows, List.filterMap_append,
      List.filterMap_append, List.filterMap_cons]
    simp [hk]
  · intro p hp
    exact genDatesLoop_recognized _ (fun w' dn h => activeFromWindows_recognized _ w' dn h)
      _ _ p hp

/-- C9 witness: a layer containing the unrecognized key `"funday"`
enumerates exactly as if the key were absent. -/
theorem c9_unrecognized_weekday_ignored_witness :
    generate_dates_for_layer
      ⟨some "A", ["alice"], false,
        some ([("monday", ⟨some "08:00", some "10:30", false⟩)] ++
          ("funday", ⟨none, none, false⟩) :: []), ⟨none, none⟩, []⟩ 739621 739628 =
      generate_dates_for_layer
        ⟨some "A", ["alice"], false,
          some ([("monday", ⟨some "08:00", some "10:30", false⟩)] ++ []), ⟨none, none⟩, []⟩
        739621 739628 :=
  (c9_unrecognized_weekday_ignored (some "A") ["alice"] false ⟨none, none⟩ []
    [("monday", ⟨some "08:00", some "10:30", false⟩)] [] "funday" ⟨none, none, false⟩
    739621 739628 (by decide)).1

/-! ### C10 -/

/-- C10: when the day's configured window lacks its `start` (resp. `end`)
clock-time and is not dummy, the loop body still materializes the shift,
substituting the literal placeholder `"N/A"` for the missing time inside
the stored `"start - end"` window string. -/
theorem c10_missing_time_na_placeholder (idx : Nat) (lname : String)
    (team : List String) (tws : List (String × DayWindow)) (old : OldWindow)
    (i d : Nat) (dn : String) (dw : DayWindow)
    (htw : tws ≠ []) (hlook : tws.lookup dn = some dw) (hdum : dw.dummy = false) :
    (dw.wstart = none →
      rowShift idx lname team tws old false i d dn =
        some ⟨d, lname, "N/A" ++ " - " ++ dw.wend.getD "N/A",
          team.getD (i % team.length) "", idx⟩) ∧
    (dw.wend = none →
      rowShift idx lname team tws old false i d dn =
        some ⟨d, lname, dw.wstart.getD "N/A" ++ " - " ++ "N/A",
          team.getD (i % team.length) "", idx⟩) := by
  have hinfo : dayInfo tws old dn = (dw.wstart.getD "N/A", dw.wend.getD "N/A", dw.dummy) := by
    rw [dayInfo, if_neg (by simp [List.isEmpty_iff, htw]), hlook]
  constructor
  · intro hs
    simp only [rowShift, hinfo]
    simp [hdum, hs]
  · intro he
    simp only [rowShift, hinfo]
    simp [hdum, he]

/-- C10 witness: a Monday window with no `start` key materializes with
`"N/A"` as the start time. -/
theorem c10_missing_time_na_placeholder_witness :
    rowShift 0 "Layer A" ["alice"] [("monday", ⟨none, some "10:30", false⟩)]
      ⟨none, none⟩ false 0 739621 "monday" =
      some ⟨739621, "Layer A",
        "N/A" ++ " - " ++ (Option.some "10:30").getD "N/A", "alice", 0⟩ := by
  rw [(c10_missing_time_na_placeholder 0 "Layer A" ["alice"]
    [("monday", ⟨none, some "10:30", false⟩)] ⟨none, none⟩ 0 739621 "monday"
    ⟨none, some "10:30", false⟩ (by decide) (by decide) rfl).1 rfl]
  decide

/-! ### Sorting lemmas for the aggregator -/

/-- The sort key of a shift: `(x[0], x[2])` = (date, full window string). -/
def keyOf (sh : Shift) : Nat × String :=
  (sh.date, sh.time_window)

theorem lexLeCh_refl : ∀ l : List Char, lexLeCh l l = true := by
  intro l
  induction l with
  | nil => rfl
  | cons c cs ih =>
    rw [lexLeCh, if_neg (Nat.lt_irrefl _), if_neg (Nat.lt_irrefl _)]
    exact ih

theorem lexLeCh_total : ∀ a b : List Char, lexLeCh a b = true ∨ lexLeCh b a = true := by
  intro a
  induction a with
  | nil => intro b; left; rfl
  | cons x xs ih =>
    intro b
    cases b with
    | nil => right; rfl
    | cons y ys =>
      by_cases h1 : x.toNat < y.toNat
      · left; rw [lexLeCh, if_pos h1]
      · by_cases h2 : y.toNat < x.toNat
        · right; rw [lexLeCh, if_pos h2]
        · rcases ih ys with h3 | h3
          · left; rw [lexLeCh, if_neg h1, if_neg h2]; exact h3
          · right; rw [lexLeCh, if_neg h2, if_neg h1]; exact h3

theorem lexLeCh_trans : ∀ a b c : List Char,
    lexLeCh a b = true → lexLeCh b c = true → lexLeCh a c = true := by
  intro a
  induction a with
  | nil => intro b c _ _; rfl
  | cons x xs ih =>
    intro b c h1 h2
    cases b with
    | nil => simp [lexLeCh] at h1
    | cons y ys =>
      cases c with
      | nil => simp [lexLeCh] at h2
      | cons z zs =>
        rw [lexLeCh] at h1 h2 ⊢
        by_cases hxy : x.toNat < y.toNat
        · by_cases hyz : y.toNat < z.toNat
          · rw [if_pos (by omega)]
          · by_cases hzy : z.toNat < y.toNat
            · rw [if_neg hyz, if_pos hzy] at h2
              exact absurd h2 (by simp)
            · rw [if_pos (by omega)]
        · by_cases hyx : y.toNat < x.toNat
          · rw [if_neg hxy, if_pos hyx] at h1
            exact absurd h1 (by simp)
          · by_cases hyz : y.toNat < z.toNat
            · rw [if_pos (by omega)]
            · by_cases hzy : z.toNat < y.toNat
              · rw [if_neg hyz, if_pos hzy] at h2
                exact absurd h2 (by simp)
              · rw [if_neg (by omega), if_neg (by omega)]
                rw [if_neg hxy, if_neg hyx] at h1
                rw [if_neg hyz, if_neg hzy] at h2
                exact ih ys zs h1 h2

theorem sortKeyLe_total (a b : Shift) : sortKeyLe a b = true ∨ sortKeyLe b a = true := by
  by_cases h1 : a.date < b.date
  · left; rw [sortKeyLe, if_pos h1]
  · by_cases h2 : b.date < a.date
    · right; rw [sortKeyLe, if_pos h2]
    · have he : a.date = b.date := by omega
      rcases lexLeCh_total a.time_window.data b.time_window.data with h3 | h3
      · left; rw [sortKeyLe, if_neg h1, if_pos he]; exact h3
      · right; rw [sortKeyLe, if_neg h2, if_pos he.symm]; exact h3

theorem sortKeyLe_trans (a b c : Shift) :
    sortKeyLe a b = true → sortKeyLe b c = true → sortKeyLe a c = true := by
  intro h1 h2
  rw [sortKeyLe] at h1 h2 ⊢
  by_cases hab : a.date < b.date
  · by_cases hbc : b.date < c.date
    · rw [if_pos (by omega)]
    · by_cases hcb : b.date = c.date
      · rw [if_pos (by omega)]
      · rw [if_neg hbc, if_neg hcb] at h2
        exact absurd h2 (by simp)
  · by_cases hba : a.date = b.date
    · rw [if_neg hab, if_pos hba] at h1
      by_cases hbc : b.date < c.date
      · rw [if_pos (by omega)]
      · by_cases hcb : b.date = c.date
        · rw [if_neg hbc, if_pos hcb] at h2
          rw [if_neg (by omega), if_pos (by omega)]
          exact lexLeCh_trans _ _ _ h1 h2
        · rw [if_neg hbc, if_neg hcb] at h2
          exact absurd h2 (by simp)
    · rw [if_neg hab, if_neg hba] at h1
      exact absurd h1 (by simp)

theorem sortKeyLe_of_keyOf_eq (a b : Shift) (h : keyOf a = keyOf b) :
    sortKeyLe a b = true := by
  rw [keyOf, keyOf, Prod.mk.injEq] at h
  obtain ⟨h1, h2⟩ := h
  rw [sortKeyLe, if_neg (by omega), if_pos h1, h2]
  exact lexLeCh_refl _

theorem filter_insertShift (x : Shift) (k : Nat × String) :
    ∀ l : List Shift,
      (insertShift x l).filter (fun s => keyOf s == k) =
        if keyOf x == k then x :: l.filter (fun s => keyOf s == k)
        else l.filter (fun s => keyOf s == k) := by
  intro l
  induction l with
  | nil => simp [insertShift, List.filter_cons]
  | cons y ys ih =>
    rw [insertShift]
    by_cases hle : sortKeyLe x y = true
    · rw [if_pos hle, List.filter_cons]
    · rw [if_neg hle, List.filter_cons]
      by_cases hk : (keyOf x == k) = true
      · have hky : (keyOf y == k) = false := by
          by_contra hc
          have h1 : (keyOf y == k) = true := by
            revert hc; cases keyOf y == k <;> simp
          have h2 : keyOf x = keyOf y := by
            rw [beq_iff_eq.mp h1, beq_iff_eq.mp hk]
          exact hle (sortKeyLe_of_keyOf_eq x y h2)
        simp [ih, List.filter_cons, hky, hk]
      · simp [ih, List.filter_cons, hk]

theorem sortShifts_stable (k : Nat × String) :
    ∀ l : List Shift,
      (sortShifts l).filter (fun s => keyOf s == k) = l.filter (fun s => keyOf s == k) := by
  intro l
  induction l with
  | nil => rfl
  | cons x xs ih =>
    rw [sortShifts, filter_insertShift, List.filter_cons]
    by_cases hk : (keyOf x == k) = true
    · rw [if_pos hk, if_pos hk, ih]
    · rw [if_neg hk, if_neg hk, ih]

theorem insertShift_perm (x : Shift) : ∀ l : List Shift, (insertShift x l).Perm (x :: l) := by
  intro l
  induction l with
  | nil => exact List.Perm.refl _
  | cons y ys ih =>
    rw [insertShift]
    by_cases h : sortKeyLe x y = true
    · rw [if_pos h]
    · rw [if_neg h]
      exact (ih.cons y).trans (List.Perm.swap x y ys)

theorem sortShifts_perm : ∀ l : List Shift, (sortShifts l).Perm l := by
  intro l
  induction l with
  | nil => exact List.Perm.refl _
  | cons x xs ih =>
    rw [sortShifts]
    exact (insertShift_perm x _).trans (ih.cons x)

theorem pairwise_insertShift (x : Shift) :
    ∀ l : List Shift, List.Pairwise (fun a b => sortKeyLe a b = true) l →
      List.Pairwise (fun a b => sortKeyLe a b = true) (insertShift x l) := by
  intro l
  induction l with
  | nil => intro _; simp [insertShift]
  | cons y ys ih =>
    intro hp
    obtain ⟨hy, hys⟩ := List.pairwise_cons.mp hp
    rw [insertShift]
    by_cases h : sortKeyLe x y = true
    · rw [if_pos h]
      refine List.pairwise_cons.mpr ⟨?_, hp⟩
      intro z hz
      rcases List.mem_cons.mp hz with rfl | hz'
      · exact h
      · exact sortKeyLe_trans x y z h (hy z hz')
    · rw [if_neg h]
      refine List.pairwise_cons.mpr ⟨?_, ih hys⟩
      intro z hz
      rcases List.mem_cons.mp ((insertShift_perm x ys).mem_iff.mp hz) with heq | hz'
      · rw [heq]
        rcases sortKeyLe_total x y with h1 | h1
        · exact absurd h1 h
        · exact h1
      · exact hy z hz'

theorem sortShifts_pairwise :
    ∀ l : List Shift, List.Pairwise (fun a b => sortKeyLe a b = true) (sortShifts l) := by
  intro l
  induction l with
  | nil => exact List.Pairwise.nil
  | cons x xs ih =>
    rw [sortShifts]
    exact pairwise_insertShift x _ ih

/-! ### C2 -/

/-- C2 counterexample: two layers on the same Monday, both starting 08:00,
declared A (ends 12:00) before B (ends 09:00).  The code sorts by the full
window string, putting B's shift first; the claim's stable sort by
`(date, start-time)` would keep A first.  Both shifts share date and
start-time key, so the claim forces declaration order — the code breaks it. -/
theorem c2_start_key_counterexample :
    canonicalShifts
      [("a", ⟨some "Layer A", ["alice"], false,
         some [("monday", ⟨some "08:00", some "12:00", false⟩)], ⟨none, none⟩, []⟩),
       ("b", ⟨some "Layer B", ["bob"], false,
         some [("monday", ⟨some "08:00", some "09:00", false⟩)], ⟨none, none⟩, []⟩)]
      739621 739622 =
      [⟨739621, "Layer B", "08:00 - 09:00", "bob", 1⟩,
       ⟨739621, "Layer A", "08:00 - 12:00", "alice", 0⟩] ∧
    sortShiftsSpec
      (allLayerShifts
        [("a", ⟨some "Layer A", ["alice"], false,
           some [("monday", ⟨some "08:00", some "12:00", false⟩)], ⟨none, none⟩, []⟩),
         ("b", ⟨some "Layer B", ["bob"], false,
           some [("monday", ⟨some "08:00", some "09:00", false⟩)], ⟨none, none⟩, []⟩)]
        739621 739622) =
      [⟨739621, "Layer A", "08:00 - 12:00", "alice", 0⟩,
       ⟨739621, "Layer B", "08:00 - 09:00", "bob", 1⟩] ∧
    startKeyOf ⟨739621, "Layer A", "08:00 - 12:00", "alice", 0⟩ =
      startKeyOf ⟨739621, "Layer B", "08:00 - 09:00", "bob", 1⟩ := by
  refine ⟨?_, ?_, ?_⟩ <;> decide

/-- C2 (amended): the Aggregated Schedule is the concatenation of all
layers' shifts stably sorted by primary ascending date and secondary
ascending FULL `"start - end"` window string (so equal start times are
further ordered by the remainder of the window string); shifts sharing
date and full window string keep their relative layer-declaration order:
the sorted list is pairwise ordered by that key, is a permutation of the
concatenation, and preserves the relative order of every key class. -/
theorem c2_sorted_by_date_and_full_window (layers : List (String × LayerConfig))
    (s e : Nat) :
    List.Pairwise (fun a b => sortKeyLe a b = true) (canonicalShifts layers s e) ∧
    (canonicalShifts layers s e).Perm (allLayerShifts layers s e) ∧
    ∀ k : Nat × String,
      (canonicalShifts layers s e).filter (fun sh => keyOf sh == k) =
        (allLayerShifts layers s e).filter (fun sh => keyOf sh == k) :=
  ⟨sortShifts_pairwise _, sortShifts_perm _, fun k => sortShifts_stable k _⟩

/-! ### C3 -/

theorem shiftsForLayer_range_empty (idx : Nat) (layer_id : String) (L : LayerConfig)
    (s e : Nat) (h : e ≤ s) : shiftsForLayer idx layer_id L s e = [] := by
  by_cases hemp : L.rotation_team.isEmpty
  · rw [shiftsForLayer, if_pos hemp]
  · rw [shiftsForLayer, if_neg hemp, generate_dates_for_layer, Nat.sub_eq_zero_of_le h]
    rfl

/-- C3 counterexample: with end ≤ start (end 2026-01-05, start 2026-01-10),
`calculate_date_range` hands the inverted range back unchanged as a plain
success value — no `EmptyRangeWarning` (or warning of any kind) exists
anywhere in the pipeline's results — and the scheduling core likewise
returns a plain success carrying zero shifts. -/
theorem c3_no_warning_counterexample :
    calculate_date_range
      ⟨none, none,
        [("l1", ⟨some "A", ["alice"], false,
          some [("monday", ⟨some "08:00", some "10:30", false⟩)], ⟨none, none⟩, []⟩)]⟩
      (some ⟨2026, 1, 10⟩) (some ⟨2026, 1, 5⟩) ⟨2026, 1, 1⟩ =
      .ok (⟨2026, 1, 10⟩, ⟨2026, 1, 5⟩) ∧
    pyLeB ⟨2026, 1, 5⟩ ⟨2026, 1, 10⟩ = true ∧
    generate_oncall_calendar_core
      [("l1", ⟨some "A", ["alice"], false,
        some [("monday", ⟨some "08:00", some "10:30", false⟩)], ⟨none, none⟩, []⟩)]
      (toOrdinal ⟨2026, 1, 10⟩) (toOrdinal ⟨2026, 1, 5⟩) = .ok [] :=
  ⟨rfl, rfl, rfl⟩

/-- C3 (amended): when the computed range has end ≤ start the pipeline is
non-fatal and produces zero shifts, but no `EmptyRangeWarning` — nor any
warning — is delivered to the caller: the core returns a plain success
with the empty schedule. -/
theorem c3_empty_range_nonfatal (layers : List (String × LayerConfig)) (s e : Nat)
    (hle : e ≤ s) (hlay : layers ≠ []) :
    generate_oncall_calendar_core layers s e = .ok [] := by
  rw [generate_oncall_calendar_core, if_neg (by simp [List.isEmpty_iff, hlay])]
  suffices h : canonicalShifts layers s e = [] by rw [h]
  rw [canonicalShifts, allLayerShifts]
  have hflat : (layers.enum.map (fun ip => shiftsForLayer ip.1 ip.2.1 ip.2.2 s e)).flatten = [] := by
    rw [List.flatten_eq_nil_iff]
    intro l hl
    obtain ⟨ip, _, rfl⟩ := List.mem_map.mp hl
    exact shiftsForLayer_range_empty ip.1 ip.2.1 ip.2.2 s e hle
  rw [hflat]
  rfl

/-- C3 witness: a one-layer configuration over an inverted concrete range. -/
theorem c3_empty_range_nonfatal_witness :
    generate_oncall_calendar_core
      [("l1", ⟨some "A", ["alice"], false,
        some [("monday", ⟨some "08:00", some "10:30", false⟩)], ⟨none, none⟩, []⟩)]
      739626 739621 = .ok [] :=
  c3_empty_range_nonfatal _ 739626 739621 (by decide) (by decide)

/-! ### C7 -/

theorem assignColors_spec : ∀ (ss : List Shift) (acc : List (String × String)) (seen : List String),
    (∀ q : String, seen.contains q = seenB acc q) →
    assignColors ss acc acc.length =
      acc ++ (List.enumFrom acc.length (firstAppearAux (ss.map (fun sh => sh.person)) seen)).map
        (fun kp => (kp.2, colors.getD (kp.1 % colors.length) "")) := by
  intro ss
  induction ss with
  | nil =>
    intro acc seen _
    simp [assignColors, firstAppearAux]
  | cons sh rest ih =>
    intro acc seen hrel
    rw [List.map_cons]
    cases h : seenB acc sh.person with
    | true =>
      have hc : seen.contains sh.person = true := by rw [hrel, h]
      have e1 : assignColors (sh :: rest) acc acc.length = assignColors rest acc acc.length := by
        simp [assignColors, h]
      have e2 : firstAppearAux (sh.person :: rest.map (fun sh2 => sh2.person)) seen =
          firstAppearAux (rest.map (fun sh2 => sh2.person)) seen := by
        simp only [firstAppearAux, hc]
        simp
      rw [e1, e2]
      exact ih acc seen hrel
    | false =>
      have hc : seen.contains sh.person = false := by rw [hrel, h]
      have e1 : assignColors (sh :: rest) acc acc.length =
          assignColors rest (acc ++ [(sh.person, colors.getD (acc.length % colors.length) "")])
            (acc.length + 1) := by
        simp [assignColors, h]
      have e2 : firstAppearAux (sh.person :: rest.map (fun sh2 => sh2.person)) seen =
          sh.person :: firstAppearAux (rest.map (fun sh2 => sh2.person)) (sh.person :: seen) := by
        simp only [firstAppearAux, hc]
        simp
      have hlen : (acc ++ [(sh.person, colors.getD (acc.length % colors.length) "")]).length =
          acc.length + 1 := by simp
      have hrel2 : ∀ q : String,
          (sh.person :: seen).contains q =
            seenB (acc ++ [(sh.person, colors.getD (acc.length % colors.length) "")]) q := by
        intro q
        rw [List.contains_cons, hrel q, seenB, seenB, List.any_append]
        have hone : List.any [(sh.person, colors.getD (acc.length % colors.length) "")]
            (fun r => r.1 == q) = (sh.person == q) := by simp
        rw [hone]
        have hcomm : (q == sh.person) = (sh.person == q) := by
          by_cases hq : q = sh.person
          · rw [hq]
          · rw [beq_eq_false_iff_ne.mpr hq, beq_eq_false_iff_ne.mpr (Ne.symm hq)]
        rw [hcomm, Bool.or_comm]
      have hih := ih (acc ++ [(sh.person, colors.getD (acc.length % colors.length) "")])
        (sh.person :: seen) hrel2
      rw [hlen] at hih
      rw [e1, e2, hih, List.enumFrom_cons, List.map_cons, List.append_assoc]
      simp

/-- C7: walking the Aggregated Schedule (canonical order), the k-th
distinct person encountered (0-based first-appearance order) is assigned
`colors[k % len(colors)]`; the mapping is a pure function of that order,
hence identical across runs on identical input. -/
theorem c7_color_first_appearance (layers : List (String × LayerConfig)) (s e : Nat) :
    person_colors (canonicalShifts layers s e) =
      ((firstAppear ((canonicalShifts layers s e).map (fun sh => sh.person))).enum).map
        (fun kp => (kp.2, colors.getD (kp.1 % colors.length) "")) := by
  have h := assignColors_spec (canonicalShifts layers s e) [] [] (fun q => rfl)
  simpa [person_colors, firstAppear, List.enum] using h

/-! ### C8 -/

/-- C8 counterexample: one shift `08:30 - 18:00`.  The global max hour
value is exactly 18.0 (1080 minutes), whose ceiling is 18, but the code
computes the upper bound `int(max) + 1 = 19`. -/
theorem c8_bounds_counterexample :
    visualBounds [⟨739621, "Layer A", "08:30 - 18:00", "alice", 0⟩] = some (8, 19) ∧
    specCeilHour (18 * 60) = 18 :=
  ⟨rfl, rfl⟩

/-- C8 (amended): on a non-empty filtered shift set whose windows all
parse, the vertical bounds are `(floor of the global minimum hour,
floor of the global maximum hour + 1)`; the upper bound equals the
ceiling of the maximum exactly when the maximum is not a whole hour, and
is one above the ceiling when it is. -/
theorem c8_bounds_floor_plus_one (sh : Shift) (rest : List Shift) (t : Nat)
    (ts : List Nat) (hc : collectTimes (sh :: rest) = some (t :: ts)) :
    visualBounds (sh :: rest) =
      some ((ts.foldl Nat.min t) / 60, (ts.foldl Nat.max t) / 60 + 1) ∧
    ((ts.foldl Nat.max t) % 60 ≠ 0 →
      (ts.foldl Nat.max t) / 60 + 1 = specCeilHour (ts.foldl Nat.max t)) ∧
    ((ts.foldl Nat.max t) % 60 = 0 →
      (ts.foldl Nat.max t) / 60 + 1 = specCeilHour (ts.foldl Nat.max t) + 1) := by
  refine ⟨?_, ?_, ?_⟩
  · rw [visualBounds, if_neg (by simp), hc]
  · intro h
    rw [specCeilHour, if_neg h]
  · intro h
    rw [specCeilHour, if_pos h]

/-- C8 witness: the amended bound computation evaluated on the concrete
`08:30 - 18:00` shift. -/
theorem c8_bounds_floor_plus_one_witness :
    visualBounds [⟨739621, "Layer A", "08:30 - 18:00", "alice", 0⟩] =
      some (([1080].foldl Nat.min 510) / 60, ([1080].foldl Nat.max 510) / 60 + 1) :=
  (c8_bounds_floor_plus_one ⟨739621, "Layer A", "08:30 - 18:00", "alice", 0⟩ []
    510 [1080] rfl).1

/-! ### String normalisation lemmas for the resolver -/

theorem dropWhile_of_all_not (p : Char → Bool) (cs : List Char)
    (h : ∀ c ∈ cs, p c = false) : cs.dropWhile p = cs := by
  cases cs with
  | nil => rfl
  | cons c cs' =>
    rw [List.dropWhile_cons]
    simp [h c (by simp)]

theorem trimChars_of_no_space (cs : List Char) (h : ∀ c ∈ cs, pyIsSpace c = false) :
    trimChars cs = cs := by
  rw [trimChars, dropWhile_of_all_not pyIsSpace cs h,
    dropWhile_of_all_not pyIsSpace cs.reverse (fun c hc => h c (List.mem_reverse.mp hc)),
    List.reverse_reverse]

theorem map_lowerChar_id (cs : List Char) (h : ∀ c ∈ cs, lowerChar c = c) :
    cs.map lowerChar = cs := by
  induction cs with
  | nil => rfl
  | cons c cs' ih =>
    rw [List.map_cons, h c (by simp), ih (fun a ha => h a (by simp [ha]))]

theorem normalizeArg_eq_self (cs : List Char) (h1 : ∀ c ∈ cs, pyIsSpace c = false)
    (h2 : ∀ c ∈ cs, lowerChar c = c) : normalizeArg cs = cs := by
  rw [normalizeArg, trimChars_of_no_space cs h1, map_lowerChar_id cs h2]

theorem isDigitC_not_space (c : Char) (h : isDigitC c = true) : pyIsSpace c = false := by
  rw [isDigitC] at h
  simp at h
  rw [pyIsSpace]
  simp
  omega

theorem isDigitC_lower_id (c : Char) (h : isDigitC c = true) : lowerChar c = c := by
  rw [isDigitC] at h
  simp at h
  rw [lowerChar, if_neg (by omega)]

theorem takeWhile_of_all (p : Char → Bool) : ∀ cs : List Char,
    (∀ c ∈ cs, p c = true) → cs.takeWhile p = cs := by
  intro cs
  induction cs with
  | nil => intro _; rfl
  | cons c cs' ih =>
    intro h
    rw [List.takeWhile_cons, h c (by simp), ih (fun a ha => h a (by simp [ha]))]
    simp

theorem dropWhile_of_all (p : Char → Bool) : ∀ cs : List Char,
    (∀ c ∈ cs, p c = true) → cs.dropWhile p = [] := by
  intro cs
  induction cs with
  | nil => intro _; rfl
  | cons c cs' ih =>
    intro h
    rw [List.dropWhile_cons, h c (by simp)]
    simp [ih (fun a ha => h a (by simp [ha]))]

theorem takeWhile_append_unit (p : Char → Bool) (u : Char) (hu : p u = false) :
    ∀ cs : List Char, (∀ c ∈ cs, p c = true) → (cs ++ [u]).takeWhile p = cs := by
  intro cs
  induction cs with
  | nil =>
    intro _
    rw [List.nil_append, List.takeWhile_cons, hu]
    rfl
  | cons c cs' ih =>
    intro h
    rw [List.cons_append, List.takeWhile_cons, h c (by simp)]
    simp only [if_true]
    rw [ih (fun a ha => h a (by simp [ha]))]

theorem dropWhile_append_unit (p : Char → Bool) (u : Char) (hu : p u = false) :
    ∀ cs : List Char, (∀ c ∈ cs, p c = true) → (cs ++ [u]).dropWhile p = [u] := by
  intro cs
  induction cs with
  | nil =>
    intro _
    rw [List.nil_append, List.dropWhile_cons, hu]
    rfl
  | cons c cs' ih =>
    intro h
    rw [List.cons_append, List.dropWhile_cons, h c (by simp)]
    simp only [if_true]
    exact ih (fun a ha => h a (by simp [ha]))

theorem parseRelative_digits (ds : List Char) (hne : ds ≠ [])
    (hd : ∀ c ∈ ds, isDigitC c = true) :
    parseRelative ('+' :: ds) = some (valDigits ds, 'd') := by
  simp only [parseRelative]
  rw [takeWhile_of_all isDigitC ds hd, dropWhile_of_all isDigitC ds hd,
    if_neg (by simp [List.isEmpty_iff, hne])]

theorem parseRelative_digits_unit (ds : List Char) (hne : ds ≠ [])
    (hd : ∀ c ∈ ds, isDigitC c = true) (u : Char) (hu : isDigitC u = false)
    (hho : u = 'd' ∨ u = 'w' ∨ u = 'm' ∨ u = 'y') :
    parseRelative ('+' :: (ds ++ [u])) = some (valDigits ds, u) := by
  simp only [parseRelative]
  rw [takeWhile_append_unit isDigitC u hu ds hd, dropWhile_append_unit isDigitC u hu ds hd,
    if_neg (by simp [List.isEmpty_iff, hne])]
  show (if u = 'd' ∨ u = 'w' ∨ u = 'm' ∨ u = 'y' then some (valDigits ds, u) else none) =
    some (valDigits ds, u)
  rw [if_pos hho]

theorem normalizeArg_plus (ds : List Char) (hd : ∀ c ∈ ds, isDigitC c = true) :
    normalizeArg ('+' :: ds) = '+' :: ds := by
  apply normalizeArg_eq_self
  · intro c hc
    rcases List.mem_cons.mp hc with rfl | hc'
    · decide
    · exact isDigitC_not_space c (hd c hc')
  · intro c hc
    rcases List.mem_cons.mp hc with rfl | hc'
    · decide
    · exact isDigitC_lower_id c (hd c hc')

theorem normalizeArg_plus_unit (ds : List Char) (hd : ∀ c ∈ ds, isDigitC c = true)
    (u : Char) (hsp : pyIsSpace u = false) (hlo : lowerChar u = u) :
    normalizeArg ('+' :: (ds ++ [u])) = '+' :: (ds ++ [u]) := by
  apply normalizeArg_eq_self
  · intro c hc
    rcases List.mem_cons.mp hc with rfl | hc'
    · decide
    · rcases List.mem_append.mp hc' with h1 | h1
      · exact isDigitC_not_space c (hd c h1)
      · rw [List.mem_singleton] at h1
        rw [h1]
        exact hsp
  · intro c hc
    rcases List.mem_cons.mp hc with rfl | hc'
    · decide
    · rcases List.mem_append.mp hc' with h1 | h1
      · exact isDigitC_lower_id c (hd c h1)
      · rw [List.mem_singleton] at h1
        rw [h1]
        exact hlo

theorem plus_ne_today (l : List Char) : ('+' :: l) ≠ "today".data := by
  intro h
  have h2 : ('+' :: l).head? = "today".data.head? := congrArg List.head? h
  rw [List.head?_cons] at h2
  exact absurd h2 (by decide)

/-! ### C5 -/

/-- C5: every valid relative expression `+N`, `+Nd`, `+Nw`, `+Nm`, `+Ny`
(digit string `N`) resolves against the reference date to the reference
plus N days, weeks, calendar months, or calendar years respectively;
month/year addition is calendar-aware (`addMonths`/`addYears` clamp to
month lengths rather than adding a fixed day count), e.g. reference
2026-01-01 with `+1m` yields 2026-02-01 and `+1y` yields 2027-01-01. -/
theorem c5_relative_expressions (ds : List Char) (ref : PyDate)
    (hne : ds ≠ []) (hd : ∀ c ∈ ds, isDigitC c = true) :
    parse_date_argument (String.mk ('+' :: ds)) ref = .ok (addDays ref (valDigits ds)) ∧
    parse_date_argument (String.mk ('+' :: (ds ++ ['d']))) ref = .ok (addDays ref (valDigits ds)) ∧
    parse_date_argument (String.mk ('+' :: (ds ++ ['w']))) ref = .ok (addDays ref (7 * valDigits ds)) ∧
    parse_date_argument (String.mk ('+' :: (ds ++ ['m']))) ref = .ok (addMonths ref (valDigits ds)) ∧
    parse_date_argument (String.mk ('+' :: (ds ++ ['y']))) ref = .ok (addYears ref (valDigits ds)) ∧
    parse_date_argument "+1m" ⟨2026, 1, 1⟩ = .ok ⟨2026, 2, 1⟩ ∧
    parse_date_argument "+1y" ⟨2026, 1, 1⟩ = .ok ⟨2027, 1, 1⟩ := by
  have hdata : ∀ l : List Char, (String.mk l).data = l := fun l => rfl
  refine ⟨?_, ?_, ?_, ?_, ?_, rfl, rfl⟩
  · rw [parse_date_argument]
    simp only [hdata]
    rw [normalizeArg_plus ds hd, if_neg (plus_ne_today ds),
      parseRelative_digits ds hne hd]
    simp
  · rw [parse_date_argument]
    simp only [hdata]
    rw [normalizeArg_plus_unit ds hd 'd' (by decide) (by decide),
      if_neg (plus_ne_today _),
      parseRelative_digits_unit ds hne hd 'd' (by decide) (by decide)]
    simp
  · rw [parse_date_argument]
    simp only [hdata]
    rw [normalizeArg_plus_unit ds hd 'w' (by decide) (by decide),
      if_neg (plus_ne_today _),
      parseRelative_digits_unit ds hne hd 'w' (by decide) (by decide)]
    simp
  · rw [parse_date_argument]
    simp only [hdata]
    rw [normalizeArg_plus_unit ds hd 'm' (by decide) (by decide),
      if_neg (plus_ne_today _),
      parseRelative_digits_unit ds hne hd 'm' (by decide) (by decide)]
    simp
  · rw [parse_date_argument]
    simp only [hdata]
    rw [normalizeArg_plus_unit ds hd 'y' (by decide) (by decide),
      if_neg (plus_ne_today _),
      parseRelative_digits_unit ds hne hd 'y' (by decide) (by decide)]
    simp

/-- C5 witness: `+3m` against 2026-01-31 resolves via `addMonths`. -/
theorem c5_relative_expressions_witness :
    parse_date_argument (String.mk ('+' :: (['3'] ++ ['m']))) ⟨2026, 1, 31⟩ =
      .ok (addMonths ⟨2026, 1, 31⟩ (valDigits ['3'])) :=
  (c5_relative_expressions ['3'] ⟨2026, 1, 31⟩ (by decide) (by decide)).2.2.2.1

/-! ### C6 -/

/-- C6: an ASCII input (the domain on which the embedded whitespace,
digit, and case classes coincide exactly with CPython's Unicode-aware
`str.strip()`, regex `\d`, and `str.lower()`) that, after stripping and
lowercasing, is not `today`, matches no relative expression of the
accepted grammar and is no valid `YYYY-MM-DD` date makes the resolver
fail — it never returns a date — with the error message carrying the
offending (normalised) input string and the list of accepted formats. -/
theorem c6_invalid_expression_error (s : String) (ref : PyDate)
    (hascii : ∀ c ∈ s.data, c.toNat ≤ 127)
    (h1 : normalizeArg s.data ≠ "today".data)
    (h2 : parseRelative (normalizeArg s.data) = none)
    (h3 : parseAbsolute (normalizeArg s.data) = none) :
    parse_date_argument s ref =
      .error ("Invalid date format '" ++ String.mk (normalizeArg s.data) ++
        "'. Use YYYY-MM-DD (e.g., 2026-01-20) or relative format (e.g., +2d, +3w, +2m, +1y, or today)") := by
  rw [parse_date_argument, if_neg h1, h2]
  show absFallback (normalizeArg s.data) = _
  unfold absFallback
  rw [h3]

/-- C6 witness: `"banana"` is rejected with the full message. -/
theorem c6_invalid_expression_error_witness :
    parse_date_argument "banana" ⟨2026, 1, 1⟩ =
      .error ("Invalid date format '" ++ String.mk (normalizeArg "banana".data) ++
        "'. Use YYYY-MM-DD (e.g., 2026-01-20) or relative format (e.g., +2d, +3w, +2m, +1y, or today)") :=
  c6_invalid_expression_error "banana" ⟨2026, 1, 1⟩ (by decide) (by decide) (by decide)
    (by decide)
